import Mathlib

/-!
Verification of the drum-grid notation/playback core.

The development shallowly embeds two source files:
 - the React component file (grid model, `computeStepsPerBar`, `remapGrid`,
   `cycleVelocity`, and the per-bar transcription loop of the notation
   renderer), and
 - the audio engine (`secondsPerStep`, `trigger`, `scheduleStep`, the
   lookahead `scheduler`, `play`, `stop`).

Machine numbers: all velocities and step counts are naturals; audio-clock
times, tempo and durations are rationals (every JS number appearing here is
an exactly representable small value, so rational arithmetic is faithful).
-/

namespace DrumGrid

/-- JavaScript Math.round on an exact nonnegative rational num/den
(half-up rounding), as a natural-number computation.
Faithful for the small operand ranges used by the program, where the
floating division is exact or far from a half-integer boundary. -/
def jsRound (num den : Nat) : Nat := (2 * num + den) / (2 * den)

/-- Number of instruments in the fixed INSTRUMENTS catalog
(kick, snare, hihat, hihatFoot, tom2, tom1, floorTom, ride, crash1, crash2).
Instruments are identified below by their index in that list. -/
def NINST : Nat := 10

/-- A grid: one velocity sequence per instrument, in catalog order.
A missing row reads as an empty sequence, matching the optional-chaining
reads of the source. -/
abbrev Grid : Type := List (List Nat)

/-- Velocity of instrument i at global step idx; out-of-range reads give 0,
matching the zero-filled arrays maintained by the component. -/
def velAt (g : Grid) (i idx : Nat) : Nat := (g.getD i []).getD idx 0

/-- Pitches active at a step: indices of instruments with nonzero velocity,
in catalog order (the source pushes NOTATION_MAP keys in the same order;
we record the instrument index instead of its staff key string). -/
def keysAt (g : Grid) (idx : Nat) : List Nat :=
  (List.range NINST).filter (fun i => velAt g i idx != 0)

/-- Source hasAnyHitAt: does any instrument hit at the absolute step? -/
def hasAnyHitAt (g : Grid) (idx : Nat) : Bool :=
  (List.range NINST).any (fun i => velAt g i idx != 0)

/-- Source isStepEmpty: negation of hasAnyHitAt. -/
def isStepEmpty (g : Grid) (idx : Nat) : Bool := !hasAnyHitAt g idx

/-- Duration classes emitted by the transcription: the VexFlow duration
strings q, 8 and 16 (the rest variants are tracked by the isRest flag). -/
inductive DurKind where
  | quarter
  | eighth
  | sixteenth
deriving DecidableEq, Repr

/-- Length of a duration class in whole notes. -/
def durVal : DurKind → ℚ
  | .quarter => 1/4
  | .eighth => 1/8
  | .sixteenth => 1/16

/-- Native duration of one step: the source computes
resolution equal 4 gives q, 8 gives 8, anything else 16. -/
def natDur (resolution : Nat) : DurKind :=
  if resolution = 4 then .quarter else if resolution = 8 then .eighth else .sixteenth

/-- A notation event: active pitches (instrument indices; empty for rests,
where the source uses the b/4 placeholder key), duration class, rest flag. -/
structure NEvent where
  keys : List Nat
  dur : DurKind
  isRest : Bool
deriving DecidableEq, Repr

/-- Source computeStepsPerBar: max(1, round(n * res / d)). -/
def computeStepsPerBar (n d res : Nat) : Nat := max 1 (jsRound (n * res) d)

/-- Steps per beat as computed inside the notation loop:
max(1, round(resolution / d)). -/
def stepsPerBeat (resolution d : Nat) : Nat := max 1 (jsRound resolution d)

/-- The merge-NOTES decision of the transcription loop, in source order:
the guards and advances of the three merged-note blocks (resolution 8 with
2 steps per beat, resolution 16 with 4 steps per beat, resolution 16 with
2 steps per beat). empty j reports whether local step j of the current bar
is empty. Returns the merged duration and cursor advance, or none. -/
def noteMergeSrc (resolution spBeat spb s : Nat) (empty : Nat → Bool) :
    Option (DurKind × Nat) :=
  let sub := if spBeat = 0 then 0 else s % spBeat
  if resolution = 8 ∧ spBeat = 2 ∧ sub = 0 ∧ s + 1 < spb ∧ empty (s+1) = true then
    some (.quarter, 2)
  else if resolution = 16 ∧ spBeat = 4 ∧ sub = 0 ∧ s + 3 < spb ∧
      empty (s+1) = true ∧ empty (s+2) = true ∧ empty (s+3) = true then
    some (.quarter, 4)
  else if resolution = 16 ∧ spBeat = 4 ∧ (sub = 0 ∨ sub = 2) ∧ s + 1 < spb ∧
      empty (s+1) = true then
    some (.eighth, 2)
  else if resolution = 16 ∧ spBeat = 2 ∧ sub = 0 ∧ s + 1 < spb ∧ empty (s+1) = true then
    some (.eighth, 2)
  else none

/-- The merge-RESTS decision, mirroring noteMergeSrc with rest durations. -/
def restMergeSrc (resolution spBeat spb s : Nat) (empty : Nat → Bool) :
    Option (DurKind × Nat) :=
  let sub := if spBeat = 0 then 0 else s % spBeat
  if resolution = 8 ∧ spBeat = 2 ∧ sub = 0 ∧ s + 1 < spb ∧ empty (s+1) = true then
    some (.quarter, 2)
  else if resolution = 16 ∧ spBeat = 4 ∧ sub = 0 ∧ s + 3 < spb ∧
      empty (s+1) = true ∧ empty (s+2) = true ∧ empty (s+3) = true then
    some (.quarter, 4)
  else if resolution = 16 ∧ spBeat = 4 ∧ (sub = 0 ∨ sub = 2) ∧ s + 1 < spb ∧
      empty (s+1) = true then
    some (.eighth, 2)
  else if resolution = 16 ∧ spBeat = 2 ∧ sub = 0 ∧ s + 1 < spb ∧ empty (s+1) = true then
    some (.eighth, 2)
  else none

/-- Emission once the two merge decisions are in hand: a merged note keeps
the active keys, a merged rest drops them, and the fallback emits one
atomic note or rest at native duration, advancing one step. -/
def emitChoice (keys : List Nat) (resolution : Nat)
    (noteRes restRes : Option (DurKind × Nat)) : NEvent × Nat :=
  match noteRes with
  | some (dk, adv) => (⟨keys, dk, false⟩, adv)
  | none =>
    match restRes with
    | some (dk, adv) => (⟨[], dk, true⟩, adv)
    | none =>
      if keys.isEmpty then (⟨[], natDur resolution, true⟩, 1)
      else (⟨keys, natDur resolution, false⟩, 1)

/-- One iteration of the transcription while-loop at cursor s of bar b:
the emitted event and the cursor advance (1, 2 or 4 steps). The note
rules are consulted only when mergeNotes is on and the step is a note,
the rest rules only when mergeRests is on and the step is a rest. -/
def stepDecision (g : Grid) (resolution spb d : Nat) (mN mR : Bool) (b s : Nat) :
    NEvent × Nat :=
  let keys := keysAt g (b * spb + s)
  let spBeat := stepsPerBeat resolution d
  let empty := fun j => isStepEmpty g (b * spb + j)
  emitChoice keys resolution
    (if mN && !keys.isEmpty then noteMergeSrc resolution spBeat spb s empty else none)
    (if mR && keys.isEmpty then restMergeSrc resolution spBeat spb s empty else none)

/-- The transcription while-loop from cursor s, with explicit fuel.
Each iteration advances the cursor by at least one step, so fuel spb
(as supplied by transcribeBar) always suffices and the fuel-exhaustion
branch is unreachable: with that fuel this is exactly the source loop. -/
def transcribeFrom (g : Grid) (resolution spb d : Nat) (mN mR : Bool) (b : Nat) :
    Nat → Nat → List NEvent
  | 0, _ => []
  | fuel + 1, s =>
    if s < spb then
      let step := stepDecision g resolution spb d mN mR b s
      step.1 :: transcribeFrom g resolution spb d mN mR b fuel (s + step.2)
    else []

/-- Transcription of bar b: the loop run from cursor 0. -/
def transcribeBar (g : Grid) (resolution spb d : Nat) (mN mR : Bool) (b : Nat) :
    List NEvent :=
  transcribeFrom g resolution spb d mN mR b spb 0

/-- Total duration, in whole notes, of a list of notation events. -/
def durSum (evs : List NEvent) : ℚ := (evs.map (fun e => durVal e.dur)).sum

/-- Destination local index of old step s under remapGrid:
clamp(round(s * newSPB / oldSPB), 0, newSPB - 1) as in the source
(the max-with-0 is vacuous over naturals, as it is over the
nonnegative values produced by Math.round there). -/
def remapIndex (oldSPB newSPB s : Nat) : Nat :=
  min (newSPB - 1) (max 0 (jsRound (s * newSPB) oldSPB))

/-- One write of the remap inner loop: skip a silent old step, otherwise
write max(out[newGlobal], val) at newGlobal = b * newSPB + remapIndex(s). -/
def remapWrite (oldSPB newSPB : Nat) (seq : List Nat) (b : Nat) (out : Nat → Nat)
    (s : Nat) : Nat → Nat :=
  let val := seq.getD (b * oldSPB + s) 0
  if val = 0 then out
  else
    let newGlobal := b * newSPB + remapIndex oldSPB newSPB s
    fun j => if j = newGlobal then max (out newGlobal) val else out j

/-- The accumulator of remapGrid for one instrument, as a map from global
new index to velocity; the source uses a zero-filled array of length
bars * newSPB and all writes land inside it, so a total function
materialized over that range below is an exact embedding. -/
def remapAccum (bars oldSPB newSPB : Nat) (seq : List Nat) : Nat → Nat :=
  (List.range bars).foldl
    (fun out b => (List.range oldSPB).foldl (remapWrite oldSPB newSPB seq b) out)
    (fun _ => 0)

/-- Remapped velocity sequence of one instrument. -/
def remapInst (bars oldSPB newSPB : Nat) (seq : List Nat) : List Nat :=
  (List.range (bars * newSPB)).map (remapAccum bars oldSPB newSPB seq)

/-- Source remapGrid: remap every instrument of the catalog; a missing
row of the previous grid reads as all zeros. -/
def remapGrid (bars oldSPB newSPB : Nat) (prev : Grid) : Grid :=
  (List.range NINST).map (fun i => remapInst bars oldSPB newSPB (prev.getD i []))

/-- Source VELOCITY_CYCLE. -/
def VELOCITY_CYCLE : List Nat := [0, 100]

/-- JavaScript Array.prototype.indexOf: index of the first occurrence,
or -1 when absent. -/
def jsIndexOf (l : List Nat) (x : Nat) : Int :=
  match l.indexOf? x with
  | some i => (i : Int)
  | none => -1

/-- The next velocity of the cyclic toggle:
VELOCITY_CYCLE[(indexOf(current) + 1) % length]. -/
def cycleNext (current : Nat) : Nat :=
  VELOCITY_CYCLE.getD
    (((jsIndexOf VELOCITY_CYCLE current + 1) % (VELOCITY_CYCLE.length : Int)).toNat) 0

/-- Source cycleVelocity: replace the targeted cell of the targeted
instrument with the next cycle value. The source rebuilds the row with
map over (value, index), which is a positional set of index idx; the
spread copy of the grid object is a positional set of row inst. -/
def cycleVelocity (g : Grid) (inst idx : Nat) : Grid :=
  g.set inst ((g.getD inst []).set idx (cycleNext ((g.getD inst []).getD idx 0)))

/-- Maximum velocity among the first k old steps of bar b that land on new
local index t, in loop order. -/
def collideStep (oldSPB newSPB : Nat) (seq : List Nat) (b t : Nat) (m s : Nat) : Nat :=
  if remapIndex oldSPB newSPB s = t then max m (seq.getD (b * oldSPB + s) 0) else m

def collideMax (oldSPB newSPB : Nat) (seq : List Nat) (b t k : Nat) : Nat :=
  (List.range k).foldl (collideStep oldSPB newSPB seq b t) 0


end DrumGrid

namespace AudioEngine

/-- A scheduled sample start: instrument, audio-clock start time passed to
src.start, and the gain clamp(velocity / 127, 0, 1). -/
structure Trigger where
  inst : Nat
  time : ℚ
  gain : ℚ
deriving DecidableEq

/-- The snapshot returned by getGridSnapshot: grid keyed by instrument id
(a missing id reads as an empty row), instrument id list, and columns,
which the snapshot may omit (play substitutes 1, the scheduler then never
wraps the cursor). -/
structure Snapshot where
  grid : Nat → List Nat
  instruments : List Nat
  columns : Option Nat

/-- The engine closure state: context existence (audioCtx and master are
created together), transport, scheduler cursor and clock, the polling
timer, the decoded-buffer table (presence only), and the audio clock
audioCtx.currentTime. The onStep callback is not modeled. -/
structure EngineState where
  ctxExists : Bool
  isPlaying : Bool
  bpm : ℚ
  resolution : ℚ
  currentStep : Nat
  nextNoteTime : ℚ
  timerActive : Bool
  buffers : Nat → Bool
  contextTime : ℚ

/-- The initial closure state of makeAudioEngine (no context, stopped,
bpm 120, resolution 16, no buffers decoded). -/
def initState : EngineState :=
  { ctxExists := false, isPlaying := false, bpm := 120, resolution := 16
    currentStep := 0, nextNoteTime := 0, timerActive := false
    buffers := fun _ => false, contextTime := 0 }

/-- Source scheduleAheadTimeSec. -/
def scheduleAheadTimeSec : ℚ := 0.12

/-- Source secondsPerStep: BPM is quarter notes per minute. -/
def secondsPerStep (bpm resolution : ℚ) : ℚ := (60 / bpm) * (4 / resolution)

/-- Source trigger: returns without scheduling when the context or the
decoded buffer is missing, otherwise schedules a sample start at the given
time with gain clamp(velocity / 127, 0, 1). -/
def trigger (ctxExists : Bool) (buffers : Nat → Bool) (instId : Nat) (time velocity : ℚ) :
    Option Trigger :=
  if ctxExists = false then none
  else if buffers instId = false then none
  else some ⟨instId, time, max 0 (min 1 (velocity / 127))⟩

/-- Source scheduleStep: trigger every instrument with nonzero velocity at
the step (the onStep callback it also invokes is not modeled). -/
def scheduleStep (ctxExists : Bool) (buffers : Nat → Bool) (grid : Nat → List Nat)
    (instruments : List Nat) (stepIndex : Nat) (time : ℚ) : List Trigger :=
  instruments.filterMap (fun i =>
    let vel := (grid i).getD stepIndex 0
    if 0 < vel then trigger ctxExists buffers i time (vel : ℚ) else none)

/-- The while-loop of the scheduler, with explicit fuel: while
nextNoteTime < horizon, schedule the current step at nextNoteTime, advance
nextNoteTime by secondsPerStep and the cursor modulo columns (no wrap when
the snapshot has no columns field, as the source comparison with undefined
is false). Returns the triggers and the final (currentStep, nextNoteTime).
Whenever secondsPerStep is positive some finite fuel makes the fuel bound
unreachable, and every property proved below holds for all fuel. -/
def schedLoop (ctxExists : Bool) (buffers : Nat → Bool) (grid : Nat → List Nat)
    (instruments : List Nat) (columns : Option Nat) (sps horizon : ℚ) :
    Nat → Nat → ℚ → List Trigger × Nat × ℚ
  | 0, step, t => ([], step, t)
  | fuel + 1, step, t =>
    if t < horizon then
      let trigs := scheduleStep ctxExists buffers grid instruments step t
      let step1 :=
        match columns with
        | some c => if c ≤ step + 1 then 0 else step + 1
        | none => step + 1
      let rest := schedLoop ctxExists buffers grid instruments columns sps horizon
        fuel step1 (t + sps)
      (trigs ++ rest.1, rest.2)
    else ([], step, t)

/-- Source scheduler, as a function of the engine state and a snapshot:
returns immediately when no context exists, otherwise runs the lookahead
loop up to horizon currentTime + scheduleAheadTimeSec. -/
def tickFn (st : EngineState) (snap : Snapshot) (fuel : Nat) :
    List Trigger × EngineState :=
  if st.ctxExists = false then ([], st)
  else
    let r := schedLoop st.ctxExists st.buffers snap.grid snap.instruments snap.columns
      (secondsPerStep st.bpm st.resolution) (st.contextTime + scheduleAheadTimeSec)
      fuel st.currentStep st.nextNoteTime
    (r.1, { st with currentStep := r.2.1, nextNoteTime := r.2.2 })

/-- Source play: resumeIfNeeded ensures the context exists; when already
playing nothing else happens; otherwise the cursor is set to
max(0, min(max(0, (columns or 1) - 1), startStep)), nextNoteTime to
currentTime + 0.03, and the polling interval is installed. -/
def playFn (st : EngineState) (snap : Snapshot) (startStep : Int) : EngineState :=
  let st1 := { st with ctxExists := true }
  if st1.isPlaying = true then st1
  else
    let maxStep : Int := max 0 ((snap.columns.getD 1 : Int) - 1)
    { st1 with
        currentStep := (max 0 (min maxStep startStep)).toNat
        nextNoteTime := st1.contextTime + 0.03
        isPlaying := true
        timerActive := true }

/-- Source stop: a no-op when already stopped, otherwise clears the playing
flag and cancels the polling interval. -/
def stopFn (st : EngineState) : EngineState :=
  if st.isPlaying = false then st
  else { st with isPlaying := false, timerActive := false }

/-- Source setTransport: overwrite bpm and resolution when the
corresponding field of the argument is a number. -/
def setTransportFn (st : EngineState) (nextBpm nextResolution : Option ℚ) : EngineState :=
  { st with bpm := nextBpm.getD st.bpm, resolution := nextResolution.getD st.resolution }

/-- Observable actions of the single-threaded host: a poll tick of the
installed interval (carrying the snapshot read, the loop fuel and the
triggers issued), the public play/stop/setTransport/setBuffers calls, and
the audio clock advancing. -/
inductive ELabel where
  | tickL (snap : Snapshot) (fuel : Nat) (out : List Trigger)
  | playL (snap : Snapshot) (startStep : Int)
  | stopL
  | setTransportL (nextBpm nextResolution : Option ℚ)
  | setBuffersL (bufs : Nat → Bool)
  | clockL (dt : ℚ)

/-- Triggers issued by an action: only poll ticks schedule samples. -/
def ELabel.triggers : ELabel → List Trigger
  | .tickL _ _ out => out
  | _ => []

/-- Is the action a play call? -/
def ELabel.isPlay : ELabel → Prop
  | .playL _ _ => True
  | _ => False

/-- Small-step semantics of the engine under the HTML event-loop model:
an interval callback can only run while the interval is installed
(clearInterval removes a queued callback before it runs), everything is
atomic on the single thread, and the audio clock is monotone. -/
inductive EStep : EngineState → ELabel → EngineState → Prop
  | tick (st : EngineState) (snap : Snapshot) (fuel : Nat)
      (h : st.timerActive = true) :
      EStep st (.tickL snap fuel (tickFn st snap fuel).1) (tickFn st snap fuel).2
  | playS (st : EngineState) (snap : Snapshot) (k : Int) :
      EStep st (.playL snap k) (playFn st snap k)
  | stopS (st : EngineState) : EStep st .stopL (stopFn st)
  | setTransportS (st : EngineState) (nb nr : Option ℚ) :
      EStep st (.setTransportL nb nr) (setTransportFn st nb nr)
  | setBuffersS (st : EngineState) (bufs : Nat → Bool) :
      EStep st (.setBuffersL bufs) { st with buffers := bufs }
  | clockS (st : EngineState) (dt : ℚ) (h : 0 ≤ dt) :
      EStep st (.clockL dt) { st with contextTime := st.contextTime + dt }

/-- A finite run of the engine with its action sequence. -/
inductive ETrace : EngineState → List ELabel → EngineState → Prop
  | nil (st : EngineState) : ETrace st [] st
  | cons {st st1 st2 : EngineState} {l : ELabel} {ls : List ELabel} :
      EStep st l st1 → ETrace st1 ls st2 → ETrace st (l :: ls) st2

/-- States the engine can actually be in. -/
def Reachable (st : EngineState) : Prop := ∃ ls, ETrace initState ls st

end AudioEngine

namespace DrumGrid

/-! Claim-side definitions: the merge-note rule table exactly as the
specification states it, as an explicit first-match-wins list. -/

/-- A declarative merge rule: a predicate over (resolution, stepsPerBeat,
stepsPerBar, cursor, emptiness of the bar's steps), the emitted duration
class, and the cursor advance. -/
structure MergeRule where
  pred : Nat → Nat → Nat → Nat → (Nat → Bool) → Bool
  dur : DurKind
  adv : Nat

/-- First-match-wins application of a rule list. -/
def firstMatch (rules : List MergeRule) (resolution spBeat spb s : Nat)
    (empty : Nat → Bool) : Option (DurKind × Nat) :=
  match rules with
  | [] => none
  | r :: rs =>
    if r.pred resolution spBeat spb s empty = true then some (r.dur, r.adv)
    else firstMatch rs resolution spBeat spb s empty

/-- Modelled from the spec: the four merge-note rules in the priority
order the specification states them, with next-step references staying
inside the bar. -/
def specNoteRules : List MergeRule :=
  [ ⟨fun resolution spBeat spb s empty =>
      decide (resolution = 16 ∧ spBeat = 4 ∧ s % spBeat = 0 ∧ s + 3 < spb ∧
        empty (s+1) = true ∧ empty (s+2) = true ∧ empty (s+3) = true), .quarter, 4⟩,
    ⟨fun resolution spBeat spb s empty =>
      decide (resolution = 16 ∧ spBeat = 4 ∧ (s % spBeat = 0 ∨ s % spBeat = 2) ∧
        s + 1 < spb ∧ empty (s+1) = true), .eighth, 2⟩,
    ⟨fun resolution spBeat spb s empty =>
      decide (resolution = 8 ∧ spBeat = 2 ∧ s % spBeat = 0 ∧ s + 1 < spb ∧
        empty (s+1) = true), .quarter, 2⟩,
    ⟨fun resolution spBeat spb s empty =>
      decide (resolution = 16 ∧ spBeat = 2 ∧ s % spBeat = 0 ∧ s + 1 < spb ∧
        empty (s+1) = true), .eighth, 2⟩ ]

/-! Helper lemmas about the transcription loop. -/

theorem restMergeSrc_eq_noteMergeSrc : restMergeSrc = noteMergeSrc := rfl

theorem noteMergeSrc_spec {resolution spBeat spb s : Nat} {empty : Nat → Bool}
    {dk : DurKind} {adv : Nat}
    (h : noteMergeSrc resolution spBeat spb s empty = some (dk, adv)) :
    durVal dk = (adv : ℚ) / (resolution : ℚ) ∧ 0 < adv ∧ s + adv ≤ spb := by
  simp only [noteMergeSrc] at h
  by_cases c1 : resolution = 8 ∧ spBeat = 2 ∧ (if spBeat = 0 then 0 else s % spBeat) = 0 ∧
      s + 1 < spb ∧ empty (s + 1) = true
  · rw [if_pos c1] at h
    obtain ⟨rfl, rfl⟩ : DurKind.quarter = dk ∧ 2 = adv := by simpa using h
    obtain ⟨rfl, -, -, hlt, -⟩ := c1
    exact ⟨by norm_num [durVal], by norm_num, by omega⟩
  · rw [if_neg c1] at h
    by_cases c2 : resolution = 16 ∧ spBeat = 4 ∧
        (if spBeat = 0 then 0 else s % spBeat) = 0 ∧ s + 3 < spb ∧
        empty (s + 1) = true ∧ empty (s + 2) = true ∧ empty (s + 3) = true
    · rw [if_pos c2] at h
      obtain ⟨rfl, rfl⟩ : DurKind.quarter = dk ∧ 4 = adv := by simpa using h
      obtain ⟨rfl, -, -, hlt, -⟩ := c2
      exact ⟨by norm_num [durVal], by norm_num, by omega⟩
    · rw [if_neg c2] at h
      by_cases c3 : resolution = 16 ∧ spBeat = 4 ∧
          ((if spBeat = 0 then 0 else s % spBeat) = 0 ∨
            (if spBeat = 0 then 0 else s % spBeat) = 2) ∧
          s + 1 < spb ∧ empty (s + 1) = true
      · rw [if_pos c3] at h
        obtain ⟨rfl, rfl⟩ : DurKind.eighth = dk ∧ 2 = adv := by simpa using h
        obtain ⟨rfl, -, -, hlt, -⟩ := c3
        exact ⟨by norm_num [durVal], by norm_num, by omega⟩
      · rw [if_neg c3] at h
        by_cases c4 : resolution = 16 ∧ spBeat = 2 ∧
            (if spBeat = 0 then 0 else s % spBeat) = 0 ∧ s + 1 < spb ∧
            empty (s + 1) = true
        · rw [if_pos c4] at h
          obtain ⟨rfl, rfl⟩ : DurKind.eighth = dk ∧ 2 = adv := by simpa using h
          obtain ⟨rfl, -, -, hlt, -⟩ := c4
          exact ⟨by norm_num [durVal], by norm_num, by omega⟩
        · rw [if_neg c4] at h
          exact absurd h (by simp)

theorem natDur_val {resolution : Nat}
    (hres : resolution = 4 ∨ resolution = 8 ∨ resolution = 16) :
    durVal (natDur resolution) = 1 / (resolution : ℚ) := by
  rcases hres with rfl | rfl | rfl <;> norm_num [natDur, durVal]

theorem if_opt_some {α : Type} {c : Bool} {x : Option α} {y : α}
    (h : (if c = true then x else none) = some y) : x = some y := by
  cases c
  · simp at h
  · simpa using h

theorem emitChoice_spec {keys : List Nat} {resolution spb s : Nat}
    {noteRes restRes : Option (DurKind × Nat)}
    (hn : ∀ dk adv, noteRes = some (dk, adv) →
      durVal dk = (adv : ℚ) / (resolution : ℚ) ∧ 0 < adv ∧ s + adv ≤ spb)
    (hr : ∀ dk adv, restRes = some (dk, adv) →
      durVal dk = (adv : ℚ) / (resolution : ℚ) ∧ 0 < adv ∧ s + adv ≤ spb)
    (hnat : durVal (natDur resolution) = 1 / (resolution : ℚ))
    (hs : s < spb) :
    durVal (emitChoice keys resolution noteRes restRes).1.dur =
      ((emitChoice keys resolution noteRes restRes).2 : ℚ) / (resolution : ℚ) ∧
    0 < (emitChoice keys resolution noteRes restRes).2 ∧
    s + (emitChoice keys resolution noteRes restRes).2 ≤ spb := by
  rcases noteRes with - | ⟨dk, adv⟩
  · rcases restRes with - | ⟨dk, adv⟩
    · simp only [emitChoice]
      split_ifs <;> refine ⟨?_, ?_, ?_⟩
      · show durVal (natDur resolution) = ((1 : Nat) : ℚ) / (resolution : ℚ)
        simpa using hnat
      · show (0 : Nat) < 1
        norm_num
      · show s + 1 ≤ spb
        omega
      · show durVal (natDur resolution) = ((1 : Nat) : ℚ) / (resolution : ℚ)
        simpa using hnat
      · show (0 : Nat) < 1
        norm_num
      · show s + 1 ≤ spb
        omega
    · simpa [emitChoice] using hr dk adv rfl
  · simpa [emitChoice] using hn dk adv rfl

theorem stepDecision_spec (g : Grid) (resolution spb d : Nat) (mN mR : Bool) (b s : Nat)
    (hres : resolution = 4 ∨ resolution = 8 ∨ resolution = 16) (hs : s < spb) :
    durVal (stepDecision g resolution spb d mN mR b s).1.dur =
      ((stepDecision g resolution spb d mN mR b s).2 : ℚ) / (resolution : ℚ) ∧
    0 < (stepDecision g resolution spb d mN mR b s).2 ∧
    s + (stepDecision g resolution spb d mN mR b s).2 ≤ spb := by
  unfold stepDecision
  refine emitChoice_spec ?_ ?_ (natDur_val hres) hs
  · intro dk adv h
    exact noteMergeSrc_spec (if_opt_some h)
  · intro dk adv h
    exact noteMergeSrc_spec (restMergeSrc_eq_noteMergeSrc ▸ if_opt_some h)

theorem durSum_cons (e : NEvent) (evs : List NEvent) :
    durSum (e :: evs) = durVal e.dur + durSum evs := by
  simp [durSum]

theorem durSum_transcribeFrom (g : Grid) (resolution spb d : Nat) (mN mR : Bool)
    (b : Nat) (hres : resolution = 4 ∨ resolution = 8 ∨ resolution = 16) :
    ∀ fuel s, spb ≤ fuel + s →
      durSum (transcribeFrom g resolution spb d mN mR b fuel s) =
        ((spb - s : ℕ) : ℚ) / (resolution : ℚ) := by
  intro fuel
  induction fuel with
  | zero =>
    intro s hle
    have hz : spb - s = 0 := by omega
    simp [transcribeFrom, durSum, hz]
  | succ n ih =>
    intro s hle
    by_cases hlt : s < spb
    · obtain ⟨hdur, hpos, hbound⟩ := stepDecision_spec g resolution spb d mN mR b s hres hlt
      have hres0 : (resolution : ℚ) ≠ 0 := by
        rcases hres with rfl | rfl | rfl <;> norm_num
      simp only [transcribeFrom, if_pos hlt, durSum_cons]
      rw [hdur, ih _ (by omega)]
      rw [div_add_div_same]
      congr 1
      have h1 : spb - (s + (stepDecision g resolution spb d mN mR b s).2) =
          spb - s - (stepDecision g resolution spb d mN mR b s).2 := by omega
      rw [h1]
      push_cast [Nat.cast_sub (by omega : (stepDecision g resolution spb d mN mR b s).2 ≤ spb - s),
        Nat.cast_sub (by omega : s ≤ spb)]
      ring
    · have hz : spb - s = 0 := by omega
      simp [transcribeFrom, if_neg hlt, durSum, hz]

theorem computeStepsPerBar_of_dvd {n d resolution k : Nat} (hd : 1 ≤ d) (hk1 : 1 ≤ k)
    (hk : n * resolution = d * k) : computeStepsPerBar n d resolution = k := by
  unfold computeStepsPerBar jsRound
  rw [hk]
  have hdiv : (2 * (d * k) + d) / (2 * d) = k := by
    rw [show 2 * (d * k) + d = 2 * d * k + d by ring]
    rw [Nat.mul_add_div (by omega)]
    rw [Nat.div_eq_of_lt (by omega)]
    omega
  rw [hdiv]
  omega

/-- C1, amended: for every grid, resolution in the offered set, bars in
[1,8], and time signature whose denominator divides numerator times
resolution (which covers every selectable signature), each bar's
transcription durations sum to exactly numerator/denominator whole
notes, with stepsPerBar = max(1, round(numerator * resolution /
denominator)). -/
theorem bar_duration_sum (g : Grid) (n d resolution bars b : Nat) (mN mR : Bool)
    (hres : resolution = 4 ∨ resolution = 8 ∨ resolution = 16)
    (hn : 1 ≤ n) (hd : 1 ≤ d) (hdvd : d ∣ n * resolution)
    (hbars1 : 1 ≤ bars) (hbars8 : bars ≤ 8) (hb : b < bars) :
    durSum (transcribeBar g resolution (computeStepsPerBar n d resolution) d mN mR b) =
      (n : ℚ) / (d : ℚ) := by
  obtain ⟨k, hk⟩ := hdvd
  have hk1 : 1 ≤ k := by
    rcases Nat.eq_zero_or_pos k with h0 | h
    · subst h0
      rcases hres with rfl | rfl | rfl <;> omega
    · exact h
  have hspb := computeStepsPerBar_of_dvd hd hk1 hk
  rw [hspb]
  unfold transcribeBar
  rw [durSum_transcribeFrom g resolution k d mN mR b hres k 0 (by omega)]
  have hres0 : (resolution : ℚ) ≠ 0 := by
    rcases hres with rfl | rfl | rfl <;> norm_num
  have hd0 : (d : ℚ) ≠ 0 := Nat.cast_ne_zero.mpr (by omega)
  have hcast : (n : ℚ) * (resolution : ℚ) = (d : ℚ) * (k : ℚ) := by exact_mod_cast hk
  rw [Nat.sub_zero, div_eq_div_iff hres0 hd0, hcast]
  ring

/-- C1, counterexample to the claim as stated: the time signature 1/8 has
positive numerator and denominator, resolution 4 is offered and bars = 1
is in range, yet the single bar of the empty grid transcribes to one
quarter rest, total 1/4 whole note, not the 1/8 whole note the claim
requires (stepsPerBar = max(1, round(1 * 4 / 8)) = 1 clamps away the
fractional bar). -/
theorem bar_duration_sum_cex :
    durSum (transcribeBar [] 4 (computeStepsPerBar 1 8 4) 8 true true 0) = 1/4 ∧
    ((1 : ℚ)/4 ≠ ((1 : ℚ)/8 : ℚ)) := by
  constructor
  · have h : transcribeBar [] 4 (computeStepsPerBar 1 8 4) 8 true true 0 =
        [⟨[], .quarter, true⟩] := by decide
    rw [h]
    norm_num [durSum, durVal]
  · norm_num

theorem bar_duration_sum_witness :
    (4 : Nat) ∣ 4 * 8 ∧
    durSum (transcribeBar [[100,0,0,0,0,0,0,0]] 8 (computeStepsPerBar 4 4 8) 4
      true true 0) = (4 : ℚ) / (4 : ℚ) :=
  ⟨by decide,
    bar_duration_sum [[100,0,0,0,0,0,0,0]] 4 4 8 1 0 true true
      (Or.inr (Or.inl rfl)) (by decide) (by decide) (by decide)
      (by decide) (by decide) (by decide)⟩

theorem noteMergeSrc_eq_specRules (resolution spBeat spb s : Nat) (empty : Nat → Bool) :
    noteMergeSrc resolution spBeat spb s empty =
      firstMatch specNoteRules resolution spBeat spb s empty := by
  by_cases hsp0 : spBeat = 0
  · simp [noteMergeSrc, firstMatch, specNoteRules, hsp0]
  · by_cases h8 : resolution = 8
    · subst h8
      simp [noteMergeSrc, firstMatch, specNoteRules, hsp0]
    · by_cases h16 : resolution = 16
      · subst h16
        simp [noteMergeSrc, firstMatch, specNoteRules, hsp0]
      · simp [noteMergeSrc, firstMatch, specNoteRules, hsp0, h8, h16]

/-- C2: with mergeNotes on and the cursor on a note, the source decision
is exactly the specification's four merge-note rules applied in the
specification's priority order, first match winning (the source checks
its resolution-8 block first, but the rule guards pin disjoint
resolutions, so the orders agree); with no match the fallback emits one
atomic event and advances one step. In particular, in 4/4 at resolution 8
a hit on beat 1 with the following eighth empty transcribes to a leading
quarter-note event when mergeNotes is on, and to an eighth note followed
by an eighth rest when it is off. -/
theorem merge_note_rules_priority :
    (∀ (resolution spBeat spb s : Nat) (empty : Nat → Bool),
      noteMergeSrc resolution spBeat spb s empty =
        firstMatch specNoteRules resolution spBeat spb s empty) ∧
    (∀ mR : Bool,
      (transcribeBar [[100,0,0,0,0,0,0,0]] 8 (computeStepsPerBar 4 4 8) 4
        true mR 0).head? = some ⟨[0], .quarter, false⟩) ∧
    (∀ mR : Bool,
      (transcribeBar [[100,0,0,0,0,0,0,0]] 8 (computeStepsPerBar 4 4 8) 4
        false mR 0).take 2 = [⟨[0], .eighth, false⟩, ⟨[], .eighth, true⟩]) :=
  ⟨noteMergeSrc_eq_specRules,
    fun mR => by cases mR <;> decide,
    fun mR => by cases mR <;> decide⟩

theorem listAny_congr {α : Type} {l : List α} {p q : α → Bool}
    (h : ∀ a ∈ l, p a = q a) : l.any p = l.any q := by
  induction l with
  | nil => rfl
  | cons a l ih =>
    simp only [List.any_cons, h a (by simp)]
    rw [ih (fun x hx => h x (by simp [hx]))]

theorem keysAt_congr {g1 g2 : Grid} {idx : Nat}
    (h : ∀ i, i < NINST → velAt g1 i idx = velAt g2 i idx) :
    keysAt g1 idx = keysAt g2 idx := by
  unfold keysAt
  exact List.filter_congr (fun i hi => by rw [h i (List.mem_range.mp hi)])

theorem isStepEmpty_congr {g1 g2 : Grid} {idx : Nat}
    (h : ∀ i, i < NINST → velAt g1 i idx = velAt g2 i idx) :
    isStepEmpty g1 idx = isStepEmpty g2 idx := by
  unfold isStepEmpty hasAnyHitAt
  rw [listAny_congr (fun i hi => by rw [h i (List.mem_range.mp hi)])]

theorem noteMergeSrc_congr {resolution spBeat spb s : Nat} {e1 e2 : Nat → Bool}
    (h : ∀ j, j < spb → e1 j = e2 j) :
    noteMergeSrc resolution spBeat spb s e1 = noteMergeSrc resolution spBeat spb s e2 := by
  by_cases h1 : s + 1 < spb
  · by_cases h3 : s + 3 < spb
    · have q1 := h (s+1) (by omega)
      have q2 := h (s+2) (by omega)
      have q3 := h (s+3) (by omega)
      simp only [noteMergeSrc, q1, q2, q3]
    · have q1 := h (s+1) (by omega)
      simp [noteMergeSrc, q1, h3]
  · have h3 : ¬ (s + 3 < spb) := by omega
    simp [noteMergeSrc, h1, h3]

theorem stepDecision_congr {g1 g2 : Grid} {resolution spb d : Nat} {mN mR : Bool}
    {b s : Nat} (hs : s < spb)
    (h : ∀ i, i < NINST → ∀ j, j < spb →
      velAt g1 i (b * spb + j) = velAt g2 i (b * spb + j)) :
    stepDecision g1 resolution spb d mN mR b s =
      stepDecision g2 resolution spb d mN mR b s := by
  have hk : keysAt g1 (b * spb + s) = keysAt g2 (b * spb + s) :=
    keysAt_congr (fun i hi => h i hi s hs)
  have he : ∀ j, j < spb → isStepEmpty g1 (b * spb + j) = isStepEmpty g2 (b * spb + j) :=
    fun j hj => isStepEmpty_congr (fun i hi => h i hi j hj)
  have hn : noteMergeSrc resolution (stepsPerBeat resolution d) spb s
        (fun j => isStepEmpty g1 (b * spb + j)) =
      noteMergeSrc resolution (stepsPerBeat resolution d) spb s
        (fun j => isStepEmpty g2 (b * spb + j)) :=
    noteMergeSrc_congr he
  have hr : restMergeSrc resolution (stepsPerBeat resolution d) spb s
        (fun j => isStepEmpty g1 (b * spb + j)) =
      restMergeSrc resolution (stepsPerBeat resolution d) spb s
        (fun j => isStepEmpty g2 (b * spb + j)) := by
    rw [restMergeSrc_eq_noteMergeSrc]
    exact noteMergeSrc_congr he
  simp only [stepDecision, hk, hn, hr]

theorem transcribeFrom_congr {g1 g2 : Grid} {resolution spb d : Nat} {mN mR : Bool}
    {b : Nat}
    (h : ∀ i, i < NINST → ∀ j, j < spb →
      velAt g1 i (b * spb + j) = velAt g2 i (b * spb + j)) :
    ∀ fuel s, transcribeFrom g1 resolution spb d mN mR b fuel s =
      transcribeFrom g2 resolution spb d mN mR b fuel s := by
  intro fuel
  induction fuel with
  | zero => intro s; rfl
  | succ n ih =>
    intro s
    by_cases hs : s < spb
    · have hd : stepDecision g1 resolution spb d mN mR b s =
          stepDecision g2 resolution spb d mN mR b s := stepDecision_congr hs h
      simp only [transcribeFrom, if_pos hs, hd, ih]
    · simp only [transcribeFrom, if_neg hs]

/-- C5: the transcription of a bar reads only that bar's steps. Any two
grids agreeing on every instrument at every step of bar b (global indices
b * stepsPerBar .. (b+1) * stepsPerBar - 1) transcribe bar b to the same
event list for the same resolution, stepsPerBar, denominator and merge
flags: the merge rules never look across a bar boundary. -/
theorem bar_locality (g1 g2 : Grid) (resolution spb d : Nat) (mN mR : Bool) (b : Nat)
    (h : ∀ i, i < NINST → ∀ j, j < spb →
      velAt g1 i (b * spb + j) = velAt g2 i (b * spb + j)) :
    transcribeBar g1 resolution spb d mN mR b =
      transcribeBar g2 resolution spb d mN mR b :=
  transcribeFrom_congr h spb 0

theorem bar_locality_witness :
    (∀ i, i < NINST → ∀ j, j < 1 →
      velAt [[100,0]] i (0 * 1 + j) = velAt [[100,50]] i (0 * 1 + j)) ∧
    transcribeBar [[100,0]] 8 1 4 true true 0 =
      transcribeBar [[100,50]] 8 1 4 true true 0 :=
  ⟨by decide, bar_locality [[100,0]] [[100,50]] 8 1 4 true true 0 (by decide)⟩

theorem remapIndex_lt (oldSPB newSPB s : Nat) (hn : 1 ≤ newSPB) :
    remapIndex oldSPB newSPB s < newSPB := by
  unfold remapIndex
  omega

theorem getD_map_range {α : Type} (f : Nat → α) (dflt : α) {n i : Nat} (hi : i < n) :
    ((List.range n).map f).getD i dflt = f i := by
  rw [List.getD_eq_getElem?_getD, List.getElem?_map, List.getElem?_range hi]
  rfl

theorem remapWrite_ne {oldSPB newSPB : Nat} {seq : List Nat} {b : Nat}
    {out : Nat → Nat} {s g : Nat}
    (hg : g ≠ b * newSPB + remapIndex oldSPB newSPB s) :
    remapWrite oldSPB newSPB seq b out s g = out g := by
  simp only [remapWrite]
  split_ifs with h0
  · rfl
  · simp [hg]

theorem innerFold_ne {oldSPB newSPB : Nat} {seq : List Nat} {b : Nat} :
    ∀ (k : Nat) (out : Nat → Nat) (g : Nat),
      (∀ s, s < k → g ≠ b * newSPB + remapIndex oldSPB newSPB s) →
      ((List.range k).foldl (remapWrite oldSPB newSPB seq b) out) g = out g := by
  intro k
  induction k with
  | zero => intro out g _; rfl
  | succ n ih =>
    intro out g h
    rw [List.range_succ, List.foldl_append, List.foldl_cons, List.foldl_nil]
    rw [remapWrite_ne (h n (by omega))]
    exact ih out g (fun s hs => h s (by omega))

theorem innerFold_at {oldSPB newSPB : Nat} {seq : List Nat} {b t : Nat} :
    ∀ (k : Nat) (out : Nat → Nat),
      ((List.range k).foldl (remapWrite oldSPB newSPB seq b) out) (b * newSPB + t) =
        max (out (b * newSPB + t)) (collideMax oldSPB newSPB seq b t k) := by
  intro k
  induction k with
  | zero =>
    intro out
    simp [collideMax]
  | succ n ih =>
    intro out
    rw [List.range_succ, List.foldl_append, List.foldl_cons, List.foldl_nil]
    have hcm : collideMax oldSPB newSPB seq b t (n + 1) =
        collideStep oldSPB newSPB seq b t (collideMax oldSPB newSPB seq b t n) n := by
      rw [collideMax, collideMax, List.range_succ, List.foldl_append, List.foldl_cons,
        List.foldl_nil]
    rw [hcm]
    simp only [remapWrite, collideStep]
    by_cases hv : seq.getD (b * oldSPB + n) 0 = 0
    · rw [if_pos hv, ih]
      split_ifs <;> omega
    · rw [if_neg hv]
      by_cases hri : remapIndex oldSPB newSPB n = t
      · rw [hri, if_pos rfl, if_pos rfl, ih]
        omega
      · have hne : b * newSPB + t ≠ b * newSPB + remapIndex oldSPB newSPB n := by omega
        rw [if_neg hne, if_neg hri, ih]

theorem outerFold_hi {oldSPB newSPB : Nat} {seq : List Nat} (hn : 1 ≤ newSPB) :
    ∀ (m g : Nat), m * newSPB ≤ g →
      ((List.range m).foldl
        (fun out b => (List.range oldSPB).foldl (remapWrite oldSPB newSPB seq b) out)
        (fun _ => 0)) g = 0 := by
  intro m
  induction m with
  | zero => intro g _; rfl
  | succ n ih =>
    intro g hg
    rw [List.range_succ, List.foldl_append, List.foldl_cons, List.foldl_nil]
    have hsucc : n * newSPB + newSPB ≤ g := by
      have h1 : (n + 1) * newSPB = n * newSPB + newSPB := by ring
      have h2 : Nat.succ n * newSPB = n * newSPB + newSPB := by rw [Nat.succ_mul]
      omega
    rw [innerFold_ne oldSPB _ g
      (fun s _ => by have := remapIndex_lt oldSPB newSPB s hn; omega)]
    exact ih g (by omega)

theorem outerFold_at {oldSPB newSPB : Nat} {seq : List Nat} {b t : Nat}
    (hn : 1 ≤ newSPB) (ht : t < newSPB) :
    ∀ m, b < m →
      ((List.range m).foldl
        (fun out b' => (List.range oldSPB).foldl (remapWrite oldSPB newSPB seq b') out)
        (fun _ => 0)) (b * newSPB + t) =
      collideMax oldSPB newSPB seq b t oldSPB := by
  intro m
  induction m with
  | zero => intro h; exact absurd h (Nat.not_lt_zero b)
  | succ n ih =>
    intro hbm
    rw [List.range_succ, List.foldl_append, List.foldl_cons, List.foldl_nil]
    by_cases hbn : b = n
    · subst hbn
      rw [innerFold_at]
      rw [outerFold_hi hn b (b * newSPB + t) (by omega)]
      omega
    · have hlt : b * newSPB + t < n * newSPB := by
        have h1 : b * newSPB + newSPB ≤ n * newSPB := by
          have := Nat.mul_le_mul_right newSPB (show b + 1 ≤ n by omega)
          rwa [Nat.succ_mul] at this
        omega
      rw [innerFold_ne oldSPB _ _ (fun s _ => by omega)]
      exact ih (by omega)

theorem remapAccum_at {bars oldSPB newSPB : Nat} {seq : List Nat} {b t : Nat}
    (hn : 1 ≤ newSPB) (hb : b < bars) (ht : t < newSPB) :
    remapAccum bars oldSPB newSPB seq (b * newSPB + t) =
      collideMax oldSPB newSPB seq b t oldSPB := by
  unfold remapAccum
  exact outerFold_at hn ht bars hb

theorem foldl_max_filter (f : Nat → Nat) (p : Nat → Bool) :
    ∀ (l : List Nat) (init : Nat),
      (l.filter p).foldl (fun m s => max m (f s)) init =
        l.foldl (fun m s => if p s = true then max m (f s) else m) init := by
  intro l
  induction l with
  | nil => intro init; rfl
  | cons a l ih =>
    intro init
    by_cases hp : p a = true
    · simp [List.filter_cons, hp, ih]
    · simp [List.filter_cons, hp, ih]

/-- C3: whenever several old steps of bar b land on the same new step
(and in general at every in-range new position), the remapped grid holds
the maximum velocity among exactly the old steps of that bar mapping
there; silent (zero) old steps are skipped and contribute nothing to the
maximum. -/
theorem remap_collision_max (prev : Grid) (bars oldSPB newSPB i b t : Nat)
    (ho : 1 ≤ oldSPB) (hn : 1 ≤ newSPB) (hb : b < bars) (ht : t < newSPB)
    (hi : i < NINST) :
    velAt (remapGrid bars oldSPB newSPB prev) i (b * newSPB + t) =
      ((List.range oldSPB).filter
          (fun s => decide (remapIndex oldSPB newSPB s = t))).foldl
        (fun m s => max m (velAt prev i (b * oldSPB + s))) 0 := by
  have hidx : b * newSPB + t < bars * newSPB := by
    have h1 : b * newSPB + newSPB ≤ bars * newSPB := by
      have := Nat.mul_le_mul_right newSPB (show b + 1 ≤ bars by omega)
      rwa [Nat.succ_mul] at this
    omega
  unfold velAt remapGrid
  rw [getD_map_range _ _ hi]
  unfold remapInst
  rw [getD_map_range _ _ hidx]
  rw [remapAccum_at hn hb ht]
  rw [foldl_max_filter]
  unfold collideMax
  refine congrArg (fun f => List.foldl f 0 (List.range oldSPB)) ?_
  funext m s
  simp [collideStep, velAt, decide_eq_true_eq]

theorem remap_collision_max_witness :
    (1 : Nat) ≤ 8 ∧ (1 : Nat) ≤ 2 ∧
    velAt (remapGrid 1 8 2 [[0,0,70,90,0,0,0,0]]) 0 (0 * 2 + 1) =
      ((List.range 8).filter (fun s => decide (remapIndex 8 2 s = 1))).foldl
        (fun m s => max m (velAt [[0,0,70,90,0,0,0,0]] 0 (0 * 8 + s))) 0 :=
  ⟨by decide, by decide,
    remap_collision_max [[0,0,70,90,0,0,0,0]] 1 8 2 0 0 1
      (by decide) (by decide) (by decide) (by decide) (by decide)⟩

theorem remapIndex_id {n s : Nat} (hs : s < n) : remapIndex n n s = s := by
  unfold remapIndex jsRound
  have h1 : (2 * (s * n) + n) / (2 * n) = s := by
    rw [show 2 * (s * n) + n = 2 * n * s + n by ring]
    rw [Nat.mul_add_div (by omega)]
    rw [Nat.div_eq_of_lt (by omega)]
    omega
  rw [h1]
  omega

theorem collideMax_id {n : Nat} {seq : List Nat} {b t : Nat} (ht : t < n) :
    ∀ k, k ≤ n →
      (List.range k).foldl (collideStep n n seq b t) 0 =
        if t < k then seq.getD (b * n + t) 0 else 0 := by
  intro k
  induction k with
  | zero => intro _; rfl
  | succ m ih =>
    intro hk
    rw [List.range_succ, List.foldl_append, List.foldl_cons, List.foldl_nil]
    rw [ih (by omega)]
    simp only [collideStep, remapIndex_id (show m < n by omega)]
    by_cases hmt : m = t
    · subst hmt
      split_ifs <;> omega
    · split_ifs <;> omega

/-- C4: remapping with unchanged steps-per-bar is the identity on every
well-formed grid (one row per catalog instrument, each of length
bars * stepsPerBar). -/
theorem remap_identity (g : Grid) (bars n : Nat) (hn : 1 ≤ n)
    (hlen : g.length = NINST) (hrows : ∀ r ∈ g, r.length = bars * n) :
    remapGrid bars n n g = g := by
  apply List.ext_getElem
  · simp [remapGrid, hlen]
  · intro i h1 h2
    simp only [remapGrid, List.getElem_map, List.getElem_range]
    have hgd : g.getD i [] = g[i] := by
      rw [List.getD_eq_getElem?_getD, List.getElem?_eq_getElem h2, Option.getD_some]
    rw [hgd]
    have hseq : g[i].length = bars * n := hrows _ (List.getElem_mem h2)
    apply List.ext_getElem
    · simp [remapInst, hseq]
    · intro idx hi1 hi2
      simp only [remapInst, List.getElem_map, List.getElem_range]
      have hid : idx < bars * n := by
        simpa [remapInst] using hi1
      have hbb : idx / n < bars :=
        Nat.div_lt_of_lt_mul (by rw [Nat.mul_comm n bars]; exact hid)
      have htt : idx % n < n := Nat.mod_lt idx (by omega)
      have hsplit : idx = (idx / n) * n + idx % n := by
        rw [Nat.div_add_mod']
      conv_lhs => rw [hsplit]
      rw [remapAccum_at hn hbb htt]
      unfold collideMax
      rw [collideMax_id htt n le_rfl, if_pos htt]
      rw [← hsplit]
      rw [List.getD_eq_getElem?_getD, List.getElem?_eq_getElem hi2, Option.getD_some]

theorem remap_identity_witness :
    (1 : Nat) ≤ 2 ∧
    remapGrid 1 2 2 (List.replicate NINST [0, 100]) = List.replicate NINST [0, 100] :=
  ⟨by decide,
    remap_identity (List.replicate NINST [0, 100]) 1 2 (by decide) (by decide)
      (by decide)⟩

theorem set_getD_self {α : Type} :
    ∀ (l : List α) (i : Nat) (d : α), i < l.length → l.set i (l.getD i d) = l := by
  intro l
  induction l with
  | nil => intro i d h; simp at h
  | cons a l ih =>
    intro i d h
    cases i with
    | zero => simp
    | succ n =>
      simp only [List.getD_cons_succ, List.set_cons_succ, List.cons.injEq, true_and]
      exact ih n d (by simpa using h)

theorem cycleNext_cycleNext {v : Nat} (h : v ∈ VELOCITY_CYCLE) :
    cycleNext (cycleNext v) = v := by
  have hv : v = 0 ∨ v = 100 := by simpa [VELOCITY_CYCLE] using h
  rcases hv with rfl | rfl <;> decide

/-- C10: toggling a cell whose value lies in the velocity cycle twice
restores the whole grid, and a single toggle is frame-preserving: the
grid keeps its instrument count, every row keeps its length, and every
cell other than the targeted one keeps its value. -/
theorem cycle_toggle (g : Grid) (inst idx : Nat)
    (hinst : inst < g.length) (hidx : idx < (g.getD inst []).length)
    (hv : (g.getD inst []).getD idx 0 ∈ VELOCITY_CYCLE) :
    cycleVelocity (cycleVelocity g inst idx) inst idx = g ∧
    (cycleVelocity g inst idx).length = g.length ∧
    (∀ i, ((cycleVelocity g inst idx).getD i []).length = (g.getD i []).length) ∧
    (∀ i j, ¬(i = inst ∧ j = idx) →
      velAt (cycleVelocity g inst idx) i j = velAt g i j) := by
  have hrow : (cycleVelocity g inst idx).getD inst [] =
      (g.getD inst []).set idx (cycleNext ((g.getD inst []).getD idx 0)) := by
    unfold cycleVelocity
    rw [List.getD_eq_getElem?_getD, List.getElem?_set_self (by simpa using hinst),
      Option.getD_some]
  have hrow_ne : ∀ i, i ≠ inst → (cycleVelocity g inst idx).getD i [] = g.getD i [] := by
    intro i hi
    unfold cycleVelocity
    rw [List.getD_eq_getElem?_getD, List.getElem?_set_ne (Ne.symm hi),
      ← List.getD_eq_getElem?_getD]
  refine ⟨?_, ?_, ?_, ?_⟩
  · show (cycleVelocity g inst idx).set inst
        (((cycleVelocity g inst idx).getD inst []).set idx
          (cycleNext (((cycleVelocity g inst idx).getD inst []).getD idx 0))) = g
    rw [hrow]
    have hcell : (((g.getD inst []).set idx
        (cycleNext ((g.getD inst []).getD idx 0))).getD idx 0) =
        cycleNext ((g.getD inst []).getD idx 0) := by
      rw [List.getD_eq_getElem?_getD, List.getElem?_set_self (by simpa using hidx),
        Option.getD_some]
    rw [hcell, List.set_set, cycleNext_cycleNext hv]
    show (g.set inst _).set inst _ = g
    rw [List.set_set, set_getD_self _ _ _ hidx, set_getD_self _ _ _ hinst]
  · show (g.set inst _).length = g.length
    exact List.length_set g inst _
  · intro i
    by_cases hi : i = inst
    · subst hi
      rw [hrow, List.length_set]
    · rw [hrow_ne i hi]
  · intro i j hij
    by_cases hi : i = inst
    · subst hi
      have hj : j ≠ idx := fun hj => hij ⟨rfl, hj⟩
      unfold velAt
      rw [hrow, List.getD_eq_getElem?_getD, List.getElem?_set_ne (Ne.symm hj),
        ← List.getD_eq_getElem?_getD]
    · unfold velAt
      rw [hrow_ne i hi]

theorem cycle_toggle_witness :
    (0 : Nat) < 2 ∧ (1 : Nat) < 2 ∧
    (([[0,100],[7,8]] : Grid).getD 0 []).getD 1 0 ∈ VELOCITY_CYCLE ∧
    cycleVelocity (cycleVelocity [[0,100],[7,8]] 0 1) 0 1 = [[0,100],[7,8]] :=
  ⟨by decide, by decide, by decide,
    (cycle_toggle [[0,100],[7,8]] 0 1 (by decide) (by decide) (by decide)).1⟩

end DrumGrid

namespace AudioEngine

theorem estep_inv {st st' : EngineState} {l : ELabel} (h : EStep st l st')
    (hi : st.isPlaying = st.timerActive) : st'.isPlaying = st'.timerActive := by
  cases h with
  | tick snap fuel ht =>
    by_cases hc : st.ctxExists = false <;> simp [tickFn, hc, hi]
  | playS snap k =>
    by_cases hp : st.isPlaying = true
    · have h2 : st.timerActive = true := by rw [← hi]; exact hp
      simp [playFn, hp, h2]
    · simp [playFn, hp]
  | stopS =>
    by_cases hp : st.isPlaying = false
    · have h2 : st.timerActive = false := by rw [← hi]; exact hp
      simp [stopFn, hp, h2]
    · simp [stopFn, hp]
  | setTransportS nb nr => simpa [setTransportFn] using hi
  | setBuffersS bufs => simpa using hi
  | clockS dt hdt => simpa using hi

theorem etrace_inv : ∀ {st st' : EngineState} {ls : List ELabel}, ETrace st ls st' →
    st.isPlaying = st.timerActive → st'.isPlaying = st'.timerActive := by
  intro st st' ls h
  induction h with
  | nil st => exact fun hi => hi
  | cons hs ht ih => exact fun hi => ih (estep_inv hs hi)

theorem reachable_inv {st : EngineState} (h : Reachable st) :
    st.isPlaying = st.timerActive := by
  obtain ⟨ls, htr⟩ := h
  exact etrace_inv htr rfl

theorem stopFn_timer {st : EngineState} (hi : st.isPlaying = st.timerActive) :
    (stopFn st).timerActive = false := by
  unfold stopFn
  split_ifs with h
  · rw [← hi, h]
  · rfl

theorem estep_no_play_timer {st st' : EngineState} {l : ELabel} (h : EStep st l st')
    (ht : st.timerActive = false) (hp : ¬ ELabel.isPlay l) :
    st'.timerActive = false ∧ ELabel.triggers l = [] := by
  cases h with
  | tick snap fuel hta => rw [ht] at hta; exact absurd hta (by simp)
  | playS snap k => exact absurd trivial hp
  | stopS =>
    refine ⟨?_, rfl⟩
    unfold stopFn
    split_ifs with hs
    · exact ht
    · rfl
  | setTransportS nb nr => exact ⟨by simpa [setTransportFn] using ht, rfl⟩
  | setBuffersS bufs => exact ⟨by simpa using ht, rfl⟩
  | clockS dt hdt => exact ⟨by simpa using ht, rfl⟩

theorem silent_run : ∀ {st st' : EngineState} {ls : List ELabel}, ETrace st ls st' →
    st.timerActive = false → (∀ l ∈ ls, ¬ ELabel.isPlay l) →
    ∀ l ∈ ls, ELabel.triggers l = [] := by
  intro st st' ls h
  induction h with
  | nil st => exact fun _ _ l hl => absurd hl (List.not_mem_nil l)
  | cons hs htr ih =>
    intro htimer hnp l hl
    obtain ⟨ht', htrig⟩ :=
      estep_no_play_timer hs htimer (hnp _ (List.mem_cons_self _ _))
    rcases List.mem_cons.mp hl with rfl | hl'
    · exact htrig
    · exact ih ht' (fun x hx => hnp x (List.mem_cons_of_mem _ hx)) l hl'

/-- C6: stop on a stopped engine is a pure no-op, and after stop returns,
a run of the engine that contains no play call issues no sample trigger
in any of its actions — in particular a poll that was pending when stop
ran (a tick action) cannot occur at all, because clearInterval removes
the queued callback in the single-threaded event-loop model. -/
theorem stop_idempotent_and_silent :
    (∀ st : EngineState, st.isPlaying = false → stopFn st = st) ∧
    (∀ (st : EngineState) (ls : List ELabel) (st' : EngineState),
      Reachable st → ETrace (stopFn st) ls st' → (∀ l ∈ ls, ¬ ELabel.isPlay l) →
      ∀ l ∈ ls, ELabel.triggers l = []) := by
  constructor
  · intro st h
    unfold stopFn
    rw [if_pos h]
  · intro st ls st' hr htr hnp
    exact silent_run htr (stopFn_timer (reachable_inv hr)) hnp

theorem stop_idempotent_and_silent_witness :
    initState.isPlaying = false ∧ stopFn initState = initState ∧
    (∀ l ∈ ([] : List ELabel), ELabel.triggers l = []) :=
  ⟨rfl, stop_idempotent_and_silent.1 initState rfl,
    stop_idempotent_and_silent.2 initState [] (stopFn initState)
      ⟨[], ETrace.nil initState⟩ (ETrace.nil (stopFn initState))
      (fun l hl => absurd hl (List.not_mem_nil l))⟩

theorem trigger_inst {c : Bool} {bufs : Nat → Bool} {i : Nat} {t v : ℚ} {tr : Trigger}
    (h : trigger c bufs i t v = some tr) : tr.inst = i := by
  unfold trigger at h
  split_ifs at h
  rw [Option.some_inj] at h
  subst h
  rfl

theorem trigger_time {c : Bool} {bufs : Nat → Bool} {i : Nat} {t v : ℚ} {tr : Trigger}
    (h : trigger c bufs i t v = some tr) : tr.time = t := by
  unfold trigger at h
  split_ifs at h
  rw [Option.some_inj] at h
  subst h
  rfl

theorem scheduleStep_time {c : Bool} {bufs : Nat → Bool} {grid : Nat → List Nat}
    {insts : List Nat} {step : Nat} {t : ℚ} :
    ∀ tr ∈ scheduleStep c bufs grid insts step t, tr.time = t := by
  intro tr htr
  simp only [scheduleStep, List.mem_filterMap] at htr
  obtain ⟨i, -, hi⟩ := htr
  by_cases hv : 0 < (grid i).getD step 0
  · rw [if_pos hv] at hi
    exact trigger_time hi
  · rw [if_neg hv] at hi
    simp at hi

theorem head_time_of_append {xs ys : List Trigger} {t : ℚ} (hne : xs ≠ [])
    (hall : ∀ tr ∈ xs, tr.time = t) :
    ((xs ++ ys).head?.map Trigger.time) = some t := by
  cases xs with
  | nil => exact absurd rfl hne
  | cons a l => simp [hall a (by simp)]

/-- C7, counterexample to the quoted number: at bpm 120 and resolution 16
the source formula gives (60/120) * (4/16) = 0.125 seconds per step (a
sixteenth of a 0.5-second quarter), not the 0.0625 seconds the claim
quotes. -/
theorem secondsPerStep_cex :
    secondsPerStep 120 16 = 0.125 ∧ ((0.125 : ℚ) ≠ (0.0625 : ℚ)) := by
  constructor <;> norm_num [secondsPerStep]

/-- C7, amended: secondsPerStep equals (60/bpm) * (4/resolution) for
positive arguments; bpm 120 at resolution 16 gives 0.125 seconds; play
from Stopped sets the first scheduling time to audio-clock now + 0.03,
which lies within [now, now + 0.03 + eps] for every eps ≥ 0; and the
first trigger of the first poll tick after such a play — whenever the
start step schedules any trigger — is stamped exactly now + 0.03. -/
theorem secondsPerStep_and_first_trigger :
    (∀ b r : ℚ, 0 < b → 0 < r → secondsPerStep b r = 60 / b * (4 / r)) ∧
    secondsPerStep 120 16 = 0.125 ∧
    (∀ (st : EngineState) (snap : Snapshot) (k : Int), st.isPlaying = false →
      (playFn st snap k).nextNoteTime = st.contextTime + 0.03 ∧
      ∀ ε : ℚ, 0 ≤ ε →
        st.contextTime ≤ (playFn st snap k).nextNoteTime ∧
        (playFn st snap k).nextNoteTime ≤ st.contextTime + 0.03 + ε) ∧
    (∀ (st : EngineState) (snap snap2 : Snapshot) (k : Int) (fuel : Nat),
      st.isPlaying = false →
      scheduleStep (playFn st snap k).ctxExists (playFn st snap k).buffers
          snap2.grid snap2.instruments (playFn st snap k).currentStep
          (playFn st snap k).nextNoteTime ≠ [] →
      ((tickFn (playFn st snap k) snap2 (fuel + 1)).1.head?.map Trigger.time) =
        some (st.contextTime + 0.03)) := by
  refine ⟨fun b r _ _ => rfl, by norm_num [secondsPerStep], ?_, ?_⟩
  · intro st snap k h
    have hnt : (playFn st snap k).nextNoteTime = st.contextTime + 0.03 := by
      simp [playFn, h]
    refine ⟨hnt, fun ε hε => ⟨?_, ?_⟩⟩
    · rw [hnt]
      have : (0 : ℚ) ≤ 0.03 := by norm_num
      linarith
    · rw [hnt]
      linarith
  · intro st snap snap2 k fuel h hne
    have hctx : (playFn st snap k).ctxExists = true := by
      simp only [playFn]
      split_ifs <;> rfl
    have hct : (playFn st snap k).contextTime = st.contextTime := by
      simp only [playFn]
      split_ifs <;> rfl
    have hnt : (playFn st snap k).nextNoteTime = st.contextTime + 0.03 := by
      simp [playFn, h]
    have hcond : (playFn st snap k).nextNoteTime <
        (playFn st snap k).contextTime + scheduleAheadTimeSec := by
      rw [hnt, hct]
      unfold scheduleAheadTimeSec
      norm_num
    rw [hctx] at hne
    unfold tickFn
    simp only [hctx]
    rw [if_neg (by simp : ¬ (true = false))]
    simp only [schedLoop]
    rw [if_pos hcond]
    rw [head_time_of_append hne scheduleStep_time, hnt]

theorem secondsPerStep_and_first_trigger_witness :
    initState.isPlaying = false ∧
    (playFn initState ⟨fun _ => [], [], some 4⟩ 0).nextNoteTime =
      initState.contextTime + 0.03 :=
  ⟨rfl,
    (secondsPerStep_and_first_trigger.2.2.1 initState ⟨fun _ => [], [], some 4⟩ 0 rfl).1⟩

/-- C8: play from Stopped sets the step cursor to
clamp(startStep, 0, columns - 1), with columns read from the snapshot and
defaulting to 1 when absent (the source clamps the upper bound at 0 first,
which coincides with the direct clamp for every natural columns value);
play while already Playing leaves the cursor, nextNoteTime and the
polling timer unchanged (it only ensures the audio context exists). -/
theorem play_sets_cursor :
    (∀ (st : EngineState) (snap : Snapshot) (k : Int), st.isPlaying = false →
      (playFn st snap k).currentStep =
        (max 0 (min ((snap.columns.getD 1 : Int) - 1) k)).toNat ∧
      (playFn st snap k).isPlaying = true ∧
      (playFn st snap k).timerActive = true) ∧
    (∀ (st : EngineState) (snap : Snapshot) (k : Int), st.isPlaying = true →
      (playFn st snap k).currentStep = st.currentStep ∧
      (playFn st snap k).nextNoteTime = st.nextNoteTime ∧
      (playFn st snap k).timerActive = st.timerActive) := by
  constructor
  · intro st snap k h
    refine ⟨?_, ?_, ?_⟩
    · simp only [playFn, h]
      rw [if_neg (by simp)]
      show (max 0 (min (max 0 ((snap.columns.getD 1 : Int) - 1)) k)).toNat = _
      omega
    · simp [playFn, h]
    · simp [playFn, h]
  · intro st snap k h
    refine ⟨?_, ?_, ?_⟩ <;> simp [playFn, h]

theorem play_sets_cursor_witness :
    initState.isPlaying = false ∧
    (playFn initState ⟨fun _ => [], [], some 4⟩ 9).currentStep =
      (max 0 (min (((⟨fun _ => [], [], some 4⟩ : Snapshot).columns.getD 1 : Int) - 1)
        9)).toNat :=
  ⟨rfl, (play_sets_cursor.1 initState ⟨fun _ => [], [], some 4⟩ 9 rfl).1⟩

theorem trigger_congr {c : Bool} {bufs bufs' : Nat → Bool} {i : Nat} {t v : ℚ}
    (h : bufs i = bufs' i) : trigger c bufs i t v = trigger c bufs' i t v := by
  unfold trigger
  rw [h]

/-- C9: a missing decoded buffer makes trigger return without scheduling
anything (total function, no exception); no trigger for that instrument
appears in the step's schedule; instruments whose buffer state agrees are
scheduled identically (so the rest of the step is unaffected); and the
scheduler's transport state — cursor and nextNoteTime after a tick — does
not depend on the buffer table at all. -/
theorem missing_buffer_skip :
    (∀ (bufs : Nat → Bool) (j : Nat) (t v : ℚ), bufs j = false →
      trigger true bufs j t v = none) ∧
    (∀ (c : Bool) (bufs : Nat → Bool) (grid : Nat → List Nat) (insts : List Nat)
      (step : Nat) (t : ℚ) (j : Nat), bufs j = false →
      ∀ tr ∈ scheduleStep c bufs grid insts step t, tr.inst ≠ j) ∧
    (∀ (c : Bool) (bufs bufs' : Nat → Bool) (grid : Nat → List Nat)
      (insts : List Nat) (step : Nat) (t : ℚ) (j : Nat),
      (∀ i, i ≠ j → bufs i = bufs' i) →
      (scheduleStep c bufs grid insts step t).filter (fun tr => tr.inst != j) =
        (scheduleStep c bufs' grid insts step t).filter (fun tr => tr.inst != j)) ∧
    (∀ (c : Bool) (bufs bufs' : Nat → Bool) (grid : Nat → List Nat)
      (insts : List Nat) (cols : Option Nat) (sps hor : ℚ) (fuel step : Nat) (t : ℚ),
      (schedLoop c bufs grid insts cols sps hor fuel step t).2 =
        (schedLoop c bufs' grid insts cols sps hor fuel step t).2) := by
  refine ⟨?_, ?_, ?_, ?_⟩
  · intro bufs j t v h
    simp [trigger, h]
  · intro c bufs grid insts step t j hj tr htr heq
    simp only [scheduleStep, List.mem_filterMap] at htr
    obtain ⟨i, -, hi⟩ := htr
    by_cases hv : 0 < (grid i).getD step 0
    · rw [if_pos hv] at hi
      have hii : tr.inst = i := trigger_inst hi
      rw [heq] at hii
      rw [hii] at hj
      have hnone : trigger c bufs i t (((grid i).getD step 0 : Nat) : ℚ) = none := by
        unfold trigger
        by_cases hc : c = false
        · rw [if_pos hc]
        · rw [if_neg hc, if_pos hj]
      rw [hnone] at hi
      simp at hi
    · rw [if_neg hv] at hi
      simp at hi
  · intro c bufs bufs' grid insts step t j hb
    induction insts with
    | nil => rfl
    | cons i rest ih =>
      simp only [scheduleStep, List.filterMap_cons] at ih ⊢
      by_cases hv : 0 < (grid i).getD step 0
      · rw [if_pos hv, if_pos hv]
        by_cases hij : i = j
        · subst hij
          rcases h1 : trigger c bufs i t ((grid i).getD step 0 : ℚ) with - | tr <;>
            rcases h2 : trigger c bufs' i t ((grid i).getD step 0 : ℚ) with - | tr' <;>
            simp only []
          · exact ih
          · rw [List.filter_cons_of_neg (by simp [trigger_inst h2])]
            exact ih
          · rw [List.filter_cons_of_neg (by simp [trigger_inst h1])]
            exact ih
          · rw [List.filter_cons_of_neg (by simp [trigger_inst h1]),
              List.filter_cons_of_neg (by simp [trigger_inst h2])]
            exact ih
        · rw [trigger_congr (hb i hij)]
          rcases h2 : trigger c bufs' i t ((grid i).getD step 0 : ℚ) with - | tr'
          · exact ih
          · simp only [List.filter_cons]
            rw [ih]
      · rw [if_neg hv, if_neg hv]
        exact ih
  · intro c bufs bufs' grid insts cols sps hor fuel
    induction fuel with
    | zero => intro step t; rfl
    | succ n ih =>
      intro step t
      simp only [schedLoop]
      by_cases hc : t < hor
      · rw [if_pos hc, if_pos hc]
        exact ih _ _
      · rw [if_neg hc, if_neg hc]

theorem missing_buffer_skip_witness :
    ((fun _ => false : Nat → Bool) 0 = false) ∧
    trigger true (fun _ => false) 0 0 100 = none :=
  ⟨rfl, missing_buffer_skip.1 (fun _ => false) 0 0 100 rfl⟩

end AudioEngine

section ScratchChecks
open DrumGrid
example : computeStepsPerBar 4 4 8 = 8 := by decide
example : computeStepsPerBar 6 8 16 = 12 := by decide
example : computeStepsPerBar 1 8 4 = 1 := by decide
example :
    transcribeBar [[100,0,0,0,0,0,0,0]] 8 8 4 true true 0 =
      [⟨[0], .quarter, false⟩, ⟨[], .quarter, true⟩, ⟨[], .quarter, true⟩,
        ⟨[], .quarter, true⟩] := by decide
example :
    (transcribeBar [[100,0,0,0,0,0,0,0]] 8 8 4 false false 0).take 2 =
      [⟨[0], .eighth, false⟩, ⟨[], .eighth, true⟩] := by decide
example : durSum (transcribeBar [] 4 (computeStepsPerBar 1 8 4) 8 true true 0) = 1/4 := by
  have h : transcribeBar [] 4 (computeStepsPerBar 1 8 4) 8 true true 0 =
      [⟨[], .quarter, true⟩] := by decide
  rw [h]
  norm_num [durSum, durVal]
example : remapGrid 1 2 2 [[0,100]] =
    ([[0,100]] : List (List Nat)) ++ List.replicate 9 [0,0] := by decide
-- collision: steps 2 and 3 of an 8-step bar land on step 1 of a 2-step bar
example : remapInst 1 8 2 [0,0,70,90,0,0,0,0] = [0,90] := by decide
example : cycleNext 0 = 100 ∧ cycleNext 100 = 0 := by decide
example : cycleVelocity (cycleVelocity [[0,100],[7,8]] 0 1) 0 1 = [[0,100],[7,8]] := by
  decide
end ScratchChecks
